import Mathlib

/-!
Verification of the qapi client library against its design specification.

Shallow embedding conventions:
- JS Uint8Array values are List Nat whose elements are bytes (0..255).
- JS thrown exceptions are Except.error carrying the thrown message.
- The mutable binary Reader of packages/scale/src/metadata.ts is embedded as
  a state-passing monad M that always returns the updated reader state, also
  on error, matching the fact that a JS throw leaves the mutated offset behind.
- JS strings holding decoded SCALE text are kept as raw byte lists, since the
  claims never depend on UTF-8 decoding; placeholder names such as pallet_3
  are rendered through their ASCII bytes.
-/

/-- A thrown JS Error, identified by its message. -/
inductive JsErr where
  | err (msg : String)
deriving DecidableEq, Repr

/-! ## packages/scale/src/index.ts -/

/-- Value of one hex digit, none for a non-hex character. -/
def hexDigitVal (c : Char) : Option Nat :=
  if ('0' ≤ c ∧ c ≤ '9') then some (c.toNat - '0'.toNat)
  else if ('a' ≤ c ∧ c ≤ 'f') then some (c.toNat - 'a'.toNat + 10)
  else if ('A' ≤ c ∧ c ≤ 'F') then some (c.toNat - 'A'.toNat + 10)
  else none

/-- JS parseInt(s, 16) on a two-character slice, followed by Uint8Array
storage which turns NaN into 0: a leading non-hex character gives 0, a
trailing non-hex character leaves the value of the first digit. -/
def jsParseHexPair (c1 c2 : Char) : Nat :=
  match hexDigitVal c1 with
  | none => 0
  | some v1 =>
    match hexDigitVal c2 with
    | none => v1
    | some v2 => 16 * v1 + v2

/-- Consecutive two-character groups of the hex body. -/
def hexPairs : List Char → List Nat
  | c1 :: c2 :: rest => jsParseHexPair c1 c2 :: hexPairs rest
  | _ => []

/-- hexToU8a: strip a leading 0x, require even length, decode byte pairs.
The string is handled through its character list. -/
def hexToU8a (hex : String) : Except JsErr (List Nat) :=
  let h := if hex.data.take 2 = ['0', 'x'] then hex.data.drop 2 else hex.data
  if h.length % 2 = 0 then .ok (hexPairs h)
  else .error (.err "hexToU8a: hex length must be even")

/-- encodeCompactU32: SCALE compact modes 0/1/2; the big-integer mode throws.
The JS bit operations on a value below 2^30 produce the bytes of
4 * value + tag, which the Nat operations below reproduce exactly. -/
def encodeCompactU32 (value : Nat) : Except JsErr (List Nat) :=
  if value < 64 then .ok [(value <<< 2) ||| 0]
  else if value < 16384 then
    let v := (value <<< 2) ||| 1
    .ok [v &&& 255, (v >>> 8) &&& 255]
  else if value < 1073741824 then
    let v := (value <<< 2) ||| 2
    .ok [v &&& 255, (v >>> 8) &&& 255, (v >>> 16) &&& 255, (v >>> 24) &&& 255]
  else .error (.err "compact: big-integer mode not implemented")

/-- decodeCompactU32 of packages/scale/src/index.ts: returns value and the
number of bytes consumed; mode 3 throws. The JS expression (x) >>> 0 is
ToUint32, embedded as % 2^32. -/
def decodeCompactU32 (bytes : List Nat) (offset : Nat) :
    Except JsErr (Nat × Nat) :=
  if offset < bytes.length then
    let first := bytes.getD offset 0
    if first % 4 = 0 then .ok (first >>> 2, 1)
    else if first % 4 = 1 then
      if offset + 1 < bytes.length then
        .ok (((first >>> 2) ||| (bytes.getD (offset + 1) 0 <<< 6)) % 4294967296, 2)
      else .error (.err "compact decode: need 2 bytes")
    else if first % 4 = 2 then
      if offset + 3 < bytes.length then
        .ok (((first >>> 2) ||| (bytes.getD (offset + 1) 0 <<< 6) |||
              (bytes.getD (offset + 2) 0 <<< 14) |||
              (bytes.getD (offset + 3) 0 <<< 22)) % 4294967296, 4)
      else .error (.err "compact decode: need 4 bytes")
    else .error (.err "compact: big-integer mode not implemented")
  else .error (.err "compact decode: out of range")

/-- The extrinsic header: declared length, version byte, signed flag, and the
offset of the first body byte. Embeds the return value of the source function
readExtrinsicPrefix (renamed here for lexical reasons only). -/
structure ExtHead where
  len : Nat
  version : Nat
  isSigned : Bool
  off : Nat
deriving DecidableEq, Repr

/-- readExtrinsicPrefix of packages/scale/src/index.ts: compact length, then
the version byte whose bit 7 is the signed flag. -/
def readExtrinsicHead (u8 : List Nat) : Except JsErr ExtHead := do
  let (len, lenBytes) ← decodeCompactU32 u8 0
  if lenBytes < u8.length then
    let version := u8.getD lenBytes 0
    .ok ⟨len, version, (version &&& 128) == 128, lenBytes + 1⟩
  else .error (.err "extrinsic prefix: missing version byte")

/-! ## packages/substrate/src/index.ts : pallet tables and extrinsic naming -/

/-- One pallet entry of a MetaTables value as consumed by the facade. -/
structure SPallet where
  name : String
  index : Nat
  calls : Option (List String)
  events : Option (List String)
deriving DecidableEq, Repr

/-- The pallet table consumed by codec.decodeExtrinsicName. -/
structure STable where
  version : Nat
  pallets : List SPallet
deriving DecidableEq, Repr

/-- The ExtrinsicIdentity returned by codec.decodeExtrinsicName. -/
structure ExtIdentity where
  pallet : String
  method : String
  signed : Bool
  reason : Option String
deriving DecidableEq, Repr

/-- The unknown fallback string of the facade. -/
def unknownStr (n : Nat) : String := s!"unknown({n})"

/-- The pallet scan of decodeExtrinsicName: the first entry with the given
index, as in t.pallets.find of the source. -/
def palletFor (tb : STable) (palletIdx : Nat) : Option SPallet :=
  tb.pallets.find? (fun p => p.index == palletIdx)

/-- The method resolution of decodeExtrinsicName: the callIdx entry of the
calls list of the found pallet, none at every missing step. -/
def methodFor (tb : STable) (palletIdx callIdx : Nat) : Option String :=
  ((palletFor tb palletIdx).bind SPallet.calls).bind (fun cs => cs.get? callIdx)

/-- codec.decodeExtrinsicName of packages/substrate/src/index.ts, with the
table already resolved (the source awaits tablesForBlock first; that RPC
resolution is I/O and is passed here as the argument t). -/
def decodeExtrinsicName (t : Option STable) (hex : String) :
    Except JsErr ExtIdentity := do
  let u8 ← hexToU8a hex
  let h ← readExtrinsicHead u8
  let palletIdx := u8.getD h.off 255
  let callIdx := u8.getD (h.off + 1) 255
  match t with
  | none =>
    .ok ⟨unknownStr palletIdx, unknownStr callIdx, h.isSigned,
         some "no-metadata"⟩
  | some tb =>
    let pallet := palletFor tb palletIdx
    let method := methodFor tb palletIdx callIdx
    if h.isSigned then
      .ok ⟨(pallet.map SPallet.name).getD (unknownStr palletIdx),
           method.getD (unknownStr callIdx), true, some "signed-not-parsed"⟩
    else
      .ok ⟨(pallet.map SPallet.name).getD (unknownStr palletIdx),
           method.getD (unknownStr callIdx), false, none⟩

/-! ## packages/scale/src/metadata.ts : the metadata decoder

The mutable Reader (byte slice plus offset) with thrown exceptions is
embedded as the monad M below: a computation maps a reader state to a value
or a thrown error, together with the state left behind. -/

/-- Reader state: the byte slice and the current offset. -/
structure Rd where
  bytes : List Nat
  off : Nat
deriving DecidableEq, Repr

/-- Reader computations: state passing with JS exceptions, keeping the state
also on error, as a JS throw leaves the mutated reader offset behind. -/
def M (α : Type) : Type := Rd → Except JsErr α × Rd

def mPure {α : Type} (a : α) : M α := fun r => (.ok a, r)

def mBind {α β : Type} (m : M α) (k : α → M β) : M β := fun r =>
  match m r with
  | (.ok a, r') => k a r'
  | (.error e, r') => (.error e, r')

instance : Monad M where
  pure := mPure
  bind := mBind

/-- A JS throw inside a reader method. -/
def mThrow {α : Type} (msg : String) : M α := fun r => (.error (.err msg), r)

/-- try catch with a fallback value, discarding the error (the JS catch
blocks of the decoder ignore the exception and keep the advanced offset). -/
def mTry {α : Type} (m : M α) (fallback : α) : M α := fun r =>
  match m r with
  | (.ok a, r') => (.ok a, r')
  | (.error _, r') => (.ok fallback, r')

/-- Reader.u8_ : read one byte or throw. -/
def mU8 : M Nat := fun r =>
  if r.off < r.bytes.length then (.ok (r.bytes.getD r.off 0), ⟨r.bytes, r.off + 1⟩)
  else (.error (.err "read u8 OOB"), r)

/-- Reader.u32_ : four little-endian bytes. -/
def mU32 : M Nat := do
  let a ← mU8
  let b ← mU8
  let c ← mU8
  let d ← mU8
  pure ((a ||| (b <<< 8) ||| (c <<< 16) ||| (d <<< 24)) % 4294967296)

/-- Reader.bytes : a view of n bytes, or throw when fewer remain. -/
def mBytes (n : Nat) : M (List Nat) := fun r =>
  if r.off + n ≤ r.bytes.length then
    (.ok ((r.bytes.drop r.off).take n), ⟨r.bytes, r.off + n⟩)
  else (.error (.err "read bytes OOB"), r)

/-- Read count little-endian bytes into an accumulator, shifting each by
8 * position, as the mode 3 loop of Reader.compactU32 does. -/
def mReadLE (count : Nat) (pos : Nat) (acc : Nat) : M Nat :=
  match count with
  | 0 => pure acc
  | n + 1 => do
    let b ← mU8
    mReadLE n (pos + 1) ((acc ||| (b <<< (8 * pos))) % 4294967296)

/-- Skip count bytes one at a time (the tail of the mode 3 branch). -/
def mSkipN (count : Nat) : M Unit :=
  match count with
  | 0 => pure ()
  | n + 1 => do
    let _ ← mU8
    mSkipN n

/-- Reader.compactU32 of metadata.ts: modes 0/1/2 plus the mode 3 branch
that narrows to u32 and consumes the surplus bytes. -/
def mCompactU32 : M Nat := do
  let b0 ← mU8
  if b0 % 4 = 0 then pure (b0 >>> 2)
  else if b0 % 4 = 1 then do
    let b1 ← mU8
    pure (((b0 >>> 2) ||| (b1 <<< 6)) % 4294967296)
  else if b0 % 4 = 2 then do
    let b1 ← mU8
    let b2 ← mU8
    let b3 ← mU8
    pure (((b0 >>> 2) ||| (b1 <<< 6) ||| (b2 <<< 14) ||| (b3 <<< 22)) % 4294967296)
  else do
    let len := (b0 >>> 2) + 4
    let v ← mReadLE (min len 4) 0 0
    mSkipN (len - min len 4)
    pure v

/-- Reader.text : compact length then that many bytes, kept raw. -/
def mText : M (List Nat) := do
  let len ← mCompactU32
  mBytes len

/-- Run a reader computation count times, collecting the results. -/
def mRepeat {α : Type} (elem : M α) : Nat → M (List α)
  | 0 => pure []
  | n + 1 => do
    let a ← elem
    let rest ← mRepeat elem n
    pure (a :: rest)

/-- Reader.vec : compact length then that many elements. -/
def mVec {α : Type} (elem : M α) : M (List α) := do
  let len ← mCompactU32
  mRepeat elem len

/-- Reader.skipVec : compact length then run elem that many times. -/
def mSkipVec {α : Type} (elem : M α) : M Unit := do
  let _ ← mVec elem
  pure ()

/-- Reader.skipTextVec. -/
def mSkipTextVec : M Unit := mSkipVec mText

/-- Reader.option : one byte tag; 0 is none, 1 reads elem, else throw. -/
def mOption {α : Type} (elem : M α) : M (Option α) := do
  let tag ← mU8
  if tag = 0 then pure none
  else if tag = 1 then do
    let a ← elem
    pure (some a)
  else mThrow "Option tag invalid"

/-- Reader.skipBytes : compact length then fast-forward, bounds checked. -/
def mSkipBytes : M Unit := do
  let n ← mCompactU32
  fun r =>
    if n ≤ r.bytes.length - r.off then (.ok (), ⟨r.bytes, r.off + n⟩)
    else (.error (.err "read bytes OOB skip"), r)

/-- Reader.peek : read without advancing, or throw at the end. -/
def mPeek : M Nat := fun r =>
  if r.off < r.bytes.length then (.ok (r.bytes.getD r.off 0), r)
  else (.error (.err "peek OOB"), r)

/-- The explicit r.o -= 1 rewind used in the errors block. -/
def mRewind1 : M Unit := fun r => (.ok (), ⟨r.bytes, r.off - 1⟩)

/-! ### Portable registry (Si1) -/

/-- One variant of a scale-info Variant definition: name bytes and u8 index. -/
structure SiVar where
  name : List Nat
  index : Nat
deriving DecidableEq, Repr

/-- TypeDef: the Variant case carries its variants, everything else is kept
opaque as Other. -/
inductive TDef where
  | variant (vs : List SiVar)
  | other
deriving DecidableEq, Repr

/-- skipSiField: name Option Text, type compact, typeName Option Text, docs. -/
def skipSiField : M Unit := do
  let _ ← mOption mText
  let _ ← mCompactU32
  let _ ← mOption mText
  mSkipTextVec

/-- skipSiTypeParameter: name Text, type Option compact, then an optional
typeName detected by peeking for a 0 or 1 tag byte. -/
def skipSiTypeParameter : M Unit := do
  let _ ← mText
  let _ ← mOption mCompactU32
  let nxt ← mPeek
  if nxt = 0 ∨ nxt = 1 then do
    let _ ← mOption mText
    pure ()
  else pure ()

/-- readSiTypeDef: u8 discriminant; tag 1 builds a Variant, tags 0 and 2-8
skip their payloads and give Other, anything else throws. -/
def readSiTypeDef : M TDef := do
  let tag ← mU8
  if tag = 1 then do
    let vs ← mVec (do
      let vName ← mText
      mSkipVec skipSiField
      let index ← mU8
      mSkipTextVec
      pure (⟨vName, index⟩ : SiVar))
    pure (.variant vs)
  else if tag = 0 then do
    mSkipVec skipSiField
    pure .other
  else if tag = 2 then do
    let _ ← mCompactU32
    pure .other
  else if tag = 3 then do
    let _ ← mU32
    let _ ← mCompactU32
    pure .other
  else if tag = 4 then do
    mSkipVec mCompactU32
    pure .other
  else if tag = 5 then do
    let _ ← mU8
    pure .other
  else if tag = 6 then do
    let _ ← mCompactU32
    pure .other
  else if tag = 7 then do
    let _ ← mCompactU32
    let _ ← mCompactU32
    pure .other
  else if tag = 8 then pure .other
  else mThrow s!"Unknown TypeDef variant: {tag}"

/-- readPortableType: compact id, skipped path and parameters, the TypeDef,
then skipped docs. -/
def readPortableType : M (Nat × TDef) := do
  let id ← mCompactU32
  mSkipTextVec
  mSkipVec skipSiTypeParameter
  let d ← readSiTypeDef
  mSkipTextVec
  pure (id, d)

/-- The registry map, in JS a Map keyed by type id with set-replace
semantics; embedded as an association list with unique keys. -/
abbrev RegMap : Type := List (Nat × TDef)

/-- Map.set: replace the entry of an existing key, else append. -/
def regSet (m : RegMap) (k : Nat) (v : TDef) : RegMap :=
  if (m.find? (fun p => p.1 == k)).isSome then
    m.map (fun p => if p.1 == k then (k, v) else p)
  else m ++ [(k, v)]

/-- Map.get. -/
def regGet (m : RegMap) (k : Nat) : Option TDef :=
  (m.find? (fun p => p.1 == k)).map Prod.snd

/-! ### Registry recovery scan -/

/-- One probe of tryRecoverToNextType at a given search offset: try a compact
id, check the plausible-id condition, then try a compact path length below
20. Returns true when the probe accepts. -/
def recoverProbe (expectedId totalTypes : Nat) (r : Rd) : Bool :=
  match mCompactU32 r with
  | (.error _, _) => false
  | (.ok id, r2) =>
    if id = expectedId ∨ (expectedId < id ∧ id < totalTypes) then
      match mCompactU32 r2 with
      | (.error _, _) => false
      | (.ok pathLen, _) => pathLen < 20
    else false

/-- The search loop of tryRecoverToNextType over remaining probe positions;
s is the current search offset relative to savedOffset. -/
def recoverLoop (expectedId totalTypes savedOffset : Nat) (bytes : List Nat) :
    Nat → Nat → Option Nat
  | _, 0 => none
  | s, rem + 1 =>
    if recoverProbe expectedId totalTypes ⟨bytes, savedOffset + s⟩ then
      some (savedOffset + s)
    else recoverLoop expectedId totalTypes savedOffset bytes (s + 1) rem

/-- tryRecoverToNextType: scan forward up to min 1000 remaining bytes for a
plausible next type header; on success the offset is left at that header, on
failure it is restored. -/
def tryRecoverToNextType (expectedId totalTypes : Nat) : M Bool := fun r =>
  let savedOffset := r.off
  let maxSearch := min 1000 (r.bytes.length - r.off)
  match recoverLoop expectedId totalTypes savedOffset r.bytes 0 maxSearch with
  | some newOff => (.ok true, ⟨r.bytes, newOff⟩)
  | none => (.ok false, ⟨r.bytes, savedOffset⟩)

/-- The body of readPortableRegistryWithFallback after its length read: for
each ordinal, parse a type or record a placeholder at the ordinal, stop after
more than 5 consecutive failures or when recovery fails. -/
def regLoop (len : Nat) : Nat → Nat → RegMap → Nat → M RegMap
  | _, 0, m, _ => pure m
  | i, rem + 1, m, consec => fun r =>
    match readPortableType r with
    | (.ok (id, d), r') => regLoop len (i + 1) rem (regSet m id d) 0 r'
    | (.error _, r') =>
      let m' := regSet m i .other
      if consec + 1 > 5 then (.ok m', r')
      else if i + 1 < len then
        match tryRecoverToNextType (i + 1) len r' with
        | (.ok true, r'') => regLoop len (i + 1) rem m' (consec + 1) r''
        | (_, r'') => (.ok m', r'')
      else regLoop len (i + 1) rem m' (consec + 1) r'

/-- readPortableRegistryWithFallback: length, tolerant per-type loop, and a
throw when not a single type parsed. -/
def readPortableRegistryWF : M RegMap := do
  let len ← mCompactU32
  let m ← regLoop len 0 len [] 0
  if m.length = 0 then mThrow "Failed to parse any types from the registry"
  else pure m

/-! ### Name projection and pallets -/

/-- Comparator key order used by the JS sort((a, b) => a.index - b.index). -/
def varLE (a b : SiVar) : Prop := a.index ≤ b.index

instance : DecidableRel varLE := fun a b => Nat.decLe a.index b.index

instance : IsTotal SiVar varLE := ⟨fun a b => Nat.le_total a.index b.index⟩

instance : IsTrans SiVar varLE := ⟨fun _ _ _ h1 h2 => Nat.le_trans h1 h2⟩

/-- variantNamesFrom of metadata.ts: look the type up; when it is a Variant,
sort its variants by declared index and project the names in that order. -/
def variantNamesFrom (reg : RegMap) (typeId : Option Nat) :
    Option (List (List Nat)) :=
  match typeId with
  | none => none
  | some t =>
    match regGet reg t with
    | some (.variant vs) => some ((vs.insertionSort varLE).map SiVar.name)
    | _ => none

/-- A pallet entry as produced by the metadata decoder: raw name bytes,
index, optional call and event name lists. -/
structure MEntry where
  name : List Nat
  index : Nat
  calls : Option (List (List Nat))
  events : Option (List (List Nat))
deriving DecidableEq, Repr

/-- ASCII bytes of a string, used for the pallet placeholder literal. -/
def asciiBytes (s : String) : List Nat := s.toList.map Char.toNat

/-- The placeholder entry readPallets records for an unreadable record. -/
def palletPlaceholder (i : Nat) : MEntry :=
  ⟨asciiBytes s!"pallet_{i}", 255, none, none⟩

/-- The storage block skip inside readOnePallet. -/
def skipStorage : M Nat := do
  let _ ← mText
  mSkipVec (do
    let _ ← mText
    let _ ← mU8
    let entryKind ← mU8
    if entryKind = 0 then do
      let _ ← mCompactU32
      pure ()
    else if entryKind = 1 ∨ entryKind = 2 then do
      mSkipVec mU8
      let _ ← mCompactU32
      let _ ← mCompactU32
      pure ()
    else pure ()
    mSkipBytes
    mSkipTextVec)
  pure 0

/-- The errors block of readOnePallet: a peeked Option tag for V14, else a
rewind and a Vec of ErrorMetadata. -/
def skipErrorsBlock : M Unit := do
  let b ← mU8
  if b = 0 ∨ b = 1 then
    if b = 1 then do
      let _ ← mCompactU32
      pure ()
    else pure ()
  else do
    mRewind1
    mSkipVec (do
      let _ ← mText
      mSkipTextVec)

/-- readOnePallet of metadata.ts: name, skipped storage, tolerant calls and
events type ids, tolerant constants, errors, index and trailing docs, then
the name projections through the registry. -/
def readOnePallet (reg : RegMap) : M MEntry := do
  let name ← mText
  let _ ← mOption skipStorage
  let callsTy ← mTry (mOption mCompactU32) none
  let eventsTy ← mTry (mOption mCompactU32) none
  mTry (mSkipVec (do
    let _ ← mText
    let _ ← mCompactU32
    mSkipBytes
    mSkipTextVec)) ()
  mTry skipErrorsBlock ()
  let index ← mTry mU8 255
  mTry mSkipTextVec ()
  pure ⟨name, index, variantNamesFrom reg callsTy, variantNamesFrom reg eventsTy⟩

/-- The indexed loop of readPallets: each record is read under a catch that
substitutes the placeholder for ordinal i. -/
def readPalletsLoop (reg : RegMap) (i : Nat) : Nat → M (List MEntry)
  | 0 => pure []
  | n + 1 => do
    let e ← mTry (readOnePallet reg) (palletPlaceholder i)
    let rest ← readPalletsLoop reg (i + 1) n
    pure (e :: rest)

/-- readPallets: vector length then the tolerant loop. -/
def readPallets (reg : RegMap) : M (List MEntry) := do
  let len ← mCompactU32
  readPalletsLoop reg 0 len

/-! ### Entry point -/

/-- MetaTables as produced by extractMetaTables. -/
structure MetaT where
  version : Nat
  pallets : List MEntry
deriving DecidableEq, Repr

/-- stripMetaMagic: drop a leading 6d 65 74 61 when the slice is at least 5
bytes long. -/
def stripMetaMagic (u8 : List Nat) : List Nat :=
  if 5 ≤ u8.length ∧ u8.getD 0 0 = 0x6d ∧ u8.getD 1 0 = 0x65 ∧
     u8.getD 2 0 = 0x74 ∧ u8.getD 3 0 = 0x61 then u8.drop 4
  else u8

/-- tryUnwrapVecU8: decode a leading compact length with modes 0/1/2 (JS
reads past the end give undefined, which the bit operations coerce to 0);
return the payload only when the length reaches exactly the end. -/
def tryUnwrapVecU8 (raw : List Nat) : Option (List Nat) :=
  let b0 := raw.getD 0 0
  if b0 % 4 = 0 then
    (if 1 + (b0 >>> 2) = raw.length then some (raw.drop 1) else none)
  else if b0 % 4 = 1 then
    let L := ((b0 >>> 2) ||| (raw.getD 1 0 <<< 6)) % 4294967296
    (if 2 + L = raw.length then some (raw.drop 2) else none)
  else if b0 % 4 = 2 then
    let L := ((b0 >>> 2) ||| (raw.getD 1 0 <<< 6) ||| (raw.getD 2 0 <<< 14) |||
              (raw.getD 3 0 <<< 22)) % 4294967296
    (if 4 + L = raw.length then some (raw.drop 4) else none)
  else none

/-- One candidate parse inside extractMetaTables: version gate, registry
with fallback, pallet pass. -/
def parseCandidate (cand : List Nat) : Except JsErr MetaT :=
  (do
    let ver ← mU8
    if ver = 14 ∨ ver = 15 ∨ ver = 16 then pure () else
      mThrow s!"bad version tag {ver}"
    let reg ← readPortableRegistryWF
    let pallets ← readPallets reg
    pure (⟨ver, pallets⟩ : MetaT)) ⟨cand, 0⟩ |>.1

/-- The candidate loop with its lastErr accumulator. -/
def firstOkCandidate : List (List Nat) → JsErr → Except JsErr MetaT
  | [], lastErr => .error lastErr
  | c :: cs, _ =>
    match parseCandidate c with
    | .ok t => .ok t
    | .error e => firstOkCandidate cs e

/-- extractMetaTables of metadata.ts over raw bytes: candidates are the
magic-stripped raw bytes, then, when the Vec unwrap applies, the
magic-stripped unwrapped payload. -/
def extractMetaTables (raw : List Nat) : Except JsErr MetaT :=
  let c1 := stripMetaMagic raw
  let cands := c1 :: (match tryUnwrapVecU8 raw with
    | some v => [stripMetaMagic v]
    | none => [])
  firstOkCandidate cands (.err "unreachable: at least one candidate")

/-! ## packages/provider-ws/src/index.ts : transport model

The single-threaded dispatch logic of WsProvider is embedded as pure state
transformers: the pending map is the list of outstanding request ids, subs
the list of registered subscription keys, and outbound frames are recorded
in a transcript. Socket I/O and awaiting are outside the embedding; the
claims below concern only the synchronous bookkeeping the source performs. -/

/-- An inbound JSON-RPC frame as classified by onMessage: an optional method
string, an optional params.subscription value, an optional numeric id, and
whether an error member is present and truthy. -/
structure WsMsg where
  methodF : Option String
  subscriptionF : Option String
  idF : Option Nat
  errorF : Bool
deriving DecidableEq, Repr

/-- WsProvider state: the id counter, the pending request ids, the
subscription keys, and the transcript of outbound frames (method, first
parameter rendered as a string). -/
structure WsState where
  nextId : Nat
  pending : List Nat
  subs : List String
  out : List (String × String)
deriving DecidableEq, Repr

/-- The notification test of onMessage: a method member that is truthy and a
params.subscription that is not null. -/
def isNotification (m : WsMsg) : Bool :=
  (match m.methodF with
   | some s => s ≠ ""
   | none => false) && m.subscriptionF.isSome

/-- onMessage: notifications go to the subscription handler; a response whose
id is pending removes the pending entry first and then either throws (error
member) or resolves the completion. Returns the new state, the list of
completions invoked, and whether the callback threw. -/
def onMessage (m : WsMsg) (st : WsState) : WsState × List Nat × Bool :=
  if isNotification m then (st, [], false)
  else
    match m.idF with
    | some i =>
      if i ∈ st.pending then
        let st' := { st with pending := st.pending.erase i }
        if m.errorF then (st', [], true) else (st', [i], false)
      else (st, [], false)
    | none => (st, [], false)

/-- Sequential dispatch of a list of inbound frames, concatenating the
completions invoked. -/
def processFrames : List WsMsg → WsState → WsState × List Nat
  | [], st => (st, [])
  | m :: ms, st =>
    let (st', comps, _) := onMessage m st
    let (st'', rest) := processFrames ms st'
    (st'', comps ++ rest)

/-- send: allocate a fresh id, emit the frame, register the pending
completion (the await of the response is outside the model). -/
def wsSend (method firstParam : String) (st : WsState) : WsState :=
  { st with
    nextId := st.nextId + 1
    pending := st.pending ++ [st.nextId + 1]
    out := st.out ++ [(method, firstParam)] }

/-- One invocation of the closure returned by subscribe: send the
unsubscribe RPC, then delete the subscription key (the deletion runs in a
finally block, hence also after a failed send). -/
def unsubInvoke (unsubscribeMethod subId : String) (st : WsState) : WsState :=
  let st' := wsSend unsubscribeMethod subId st
  { st' with subs := st'.subs.erase subId }

/-- Number of transcript entries calling a given method. -/
def countCalls (method : String) (st : WsState) : Nat :=
  (st.out.filter (fun f => f.1 == method)).length

/-! ## The table override path of Qapi.connect, modelled from the spec

Modelled from the spec: the handling of overrides.metadata.tables inside
Qapi.connect is absent from src/packages/substrate/src/index.ts (its
QapiConfig has no metadata member), while the bundled example caller does
supply such tables; the adopting facade revision is missing from the
snapshot. Sections 4.5 step 1 and 6 of the spec describe it: adopt the
supplied tables verbatim as the latest table and as the cached entry for
runtime.specVersion, converting the richer calls shape (name, index pairs)
to dense name-by-index sequences by sparse projection, filling unoccupied
positions as unknown, and perform no metadata decode in that case. -/

/-- An override call descriptor: name and declared index. -/
structure OvCall where
  name : String
  index : Nat
deriving DecidableEq, Repr

/-- An override pallet entry in the richer override shape. -/
structure OvPallet where
  name : String
  index : Nat
  calls : Option (List OvCall)
  events : Option (List OvCall)
deriving DecidableEq, Repr

/-- Override tables as supplied through overrides.metadata.tables. -/
structure OvTables where
  version : Nat
  pallets : List OvPallet
deriving DecidableEq, Repr

/-- Modelled from the spec: sparse-project the declared (name, index) pairs
into a dense sequence indexed by declared index, filling unoccupied
positions with the synthetic unknown marker. -/
def denseProject (cs : List OvCall) : List String :=
  match cs.foldl (fun acc c => max acc (c.index + 1)) 0 with
  | 0 => []
  | n =>
    (List.range n).map (fun i =>
      match cs.find? (fun c => c.index == i) with
      | some c => c.name
      | none => s!"unknown({i})")

/-- Modelled from the spec: convert one override pallet to the facade shape. -/
def convertOvPallet (p : OvPallet) : SPallet :=
  ⟨p.name, p.index, p.calls.map denseProject, p.events.map denseProject⟩

/-- Modelled from the spec: convert override tables to a facade table. -/
def convertOvTables (t : OvTables) : STable :=
  ⟨t.version, t.pallets.map convertOvPallet⟩

/-- The table state Qapi.connect establishes. -/
structure ConnTables where
  tablesLatest : Option STable
  tablesBySpec : List (Nat × STable)
  decodedChainMetadata : Bool
deriving DecidableEq, Repr

/-- Modelled from the spec: the table-establishment step of Qapi.connect.
With override tables supplied they are adopted as latest and cached for the
runtime spec version without decoding the chain metadata; otherwise the
chain metadata is decoded (passed here as the already-computed result). -/
def connectTables (overrideTables : Option OvTables) (specVersion : Nat)
    (decoded : Option STable) : ConnTables :=
  match overrideTables with
  | some ov =>
    let t := convertOvTables ov
    ⟨some t, [(specVersion, t)], false⟩
  | none =>
    match decoded with
    | some t => ⟨some t, [(specVersion, t)], true⟩
    | none => ⟨none, [], true⟩

/-! ## Shared instances and arithmetic helpers -/

deriving instance DecidableEq for Except

lemma and_255_eq_mod (x : Nat) : x &&& 255 = x % 256 := by
  have h := Nat.and_pow_two_sub_one_eq_mod x 8
  norm_num at h
  exact h

lemma lor_small_eq_add {b : Nat} (i : Nat) (hb : b < 2 ^ i) (a : Nat) :
    b ||| (a <<< i) = a * 2 ^ i + b := by
  have hx := Nat.mul_add_lt_is_or (i := i) hb a
  rw [Nat.shiftLeft_eq, Nat.mul_comm a (2 ^ i), Nat.lor_comm, ← hx]

lemma shiftr_eq (x k : Nat) : x >>> k = x / 2 ^ k := by
  rw [Nat.shiftRight_eq_div_pow]

lemma shl_or_tag (n t : Nat) (ht : t < 4) : (n <<< 2) ||| t = 4 * n + t := by
  have h1 : t < 2 ^ 2 := Nat.lt_of_lt_of_le ht (by norm_num)
  have hx := Nat.mul_add_lt_is_or (i := 2) h1 n
  rw [Nat.shiftLeft_eq, Nat.mul_comm n (2 ^ 2), ← hx]

/-- Evaluation of decodeCompactU32 on a mode 0 head byte. -/
lemma decode1 (b0 : Nat) (rest : List Nat) (hm : b0 % 4 = 0) :
    decodeCompactU32 (b0 :: rest) 0 = .ok (b0 / 4, 1) := by
  have e0 : b0 >>> 2 = b0 / 4 := by rw [shiftr_eq]; norm_num
  simp [decodeCompactU32, hm, e0]

/-- Evaluation of decodeCompactU32 on a mode 1 head byte. -/
lemma decode2 (b0 b1 : Nat) (rest : List Nat) (hb0 : b0 < 256)
    (hb1 : b1 < 256) (hm : b0 % 4 = 1) :
    decodeCompactU32 (b0 :: b1 :: rest) 0 = .ok (b1 * 64 + b0 / 4, 2) := by
  have hm0 : ¬ b0 % 4 = 0 := by omega
  have e0 : b0 >>> 2 = b0 / 4 := by rw [shiftr_eq]; norm_num
  have hsmall : b0 / 4 < 2 ^ 6 := by norm_num; omega
  have e1 : (b0 >>> 2) ||| (b1 <<< 6) = b1 * 64 + b0 / 4 := by
    rw [e0]
    have h2 := lor_small_eq_add 6 hsmall b1
    norm_num at h2
    exact h2
  have hlt : (b1 * 64 + b0 / 4) % 4294967296 = b1 * 64 + b0 / 4 :=
    Nat.mod_eq_of_lt (by omega)
  simp [decodeCompactU32, hm0, hm, e1, hlt]

/-- Evaluation of decodeCompactU32 on a mode 2 head byte. -/
lemma decode4 (b0 b1 b2 b3 : Nat) (rest : List Nat) (hb0 : b0 < 256)
    (hb1 : b1 < 256) (hb2 : b2 < 256) (hb3 : b3 < 256) (hm : b0 % 4 = 2) :
    decodeCompactU32 (b0 :: b1 :: b2 :: b3 :: rest) 0 =
      .ok (b3 * 4194304 + (b2 * 16384 + (b1 * 64 + b0 / 4)), 4) := by
  have hm0 : ¬ b0 % 4 = 0 := by omega
  have hm1 : ¬ b0 % 4 = 1 := by omega
  have e0 : b0 >>> 2 = b0 / 4 := by rw [shiftr_eq]; norm_num
  have hs1 : b0 / 4 < 2 ^ 6 := by norm_num; omega
  have e1 : (b0 >>> 2) ||| (b1 <<< 6) = b1 * 64 + b0 / 4 := by
    rw [e0]
    have h2 := lor_small_eq_add 6 hs1 b1
    norm_num at h2
    exact h2
  have hs2 : b1 * 64 + b0 / 4 < 2 ^ 14 := by norm_num; omega
  have e2 : (b1 * 64 + b0 / 4) ||| (b2 <<< 14) =
      b2 * 16384 + (b1 * 64 + b0 / 4) := by
    have h2 := lor_small_eq_add 14 hs2 b2
    norm_num at h2
    exact h2
  have hs3 : b2 * 16384 + (b1 * 64 + b0 / 4) < 2 ^ 22 := by norm_num; omega
  have e3 : (b2 * 16384 + (b1 * 64 + b0 / 4)) ||| (b3 <<< 22) =
      b3 * 4194304 + (b2 * 16384 + (b1 * 64 + b0 / 4)) := by
    have h2 := lor_small_eq_add 22 hs3 b3
    norm_num at h2
    exact h2
  have hlt : (b3 * 4194304 + (b2 * 16384 + (b1 * 64 + b0 / 4))) % 4294967296 =
      b3 * 4194304 + (b2 * 16384 + (b1 * 64 + b0 / 4)) :=
    Nat.mod_eq_of_lt (by omega)
  simp [decodeCompactU32, hm0, hm1, hm, e1, e2, e3, hlt]

/-- C9: for every n below 2^30, decoding the bytes produced by
encodeCompactU32 with decodeCompactU32 returns n, and the number of bytes
consumed equals the number of bytes produced, across all three compact
modes and in particular at the mode boundaries 63, 64, 16383, 16384 and
1073741823. -/
theorem c9_compact_roundtrip (n : Nat) (h : n < 1073741824) :
    ∃ bs, encodeCompactU32 n = .ok bs ∧
      decodeCompactU32 bs 0 = .ok (n, bs.length) := by
  rcases Nat.lt_or_ge n 64 with h64 | h64
  · have hb : encodeCompactU32 n = .ok [4 * n] := by
      have h0 := shl_or_tag n 0 (by norm_num)
      simp [encodeCompactU32, h64, h0]
    refine ⟨[4 * n], hb, ?_⟩
    rw [decode1 _ _ (by omega)]
    have hd : 4 * n / 4 = n := by omega
    simp [hd]
  · rcases Nat.lt_or_ge n 16384 with h14 | h14
    · have hv := shl_or_tag n 1 (by norm_num)
      have hb1e : ((4 * n + 1) >>> 8) &&& 255 = (4 * n + 1) / 256 := by
        rw [shiftr_eq, and_255_eq_mod]
        norm_num
        omega
      have hb : encodeCompactU32 n =
          .ok [(4 * n + 1) % 256, (4 * n + 1) / 256] := by
        simp [encodeCompactU32, h64, h14, hv, and_255_eq_mod, hb1e]
      refine ⟨_, hb, ?_⟩
      rw [decode2 _ _ _ (by omega) (by omega) (by omega)]
      have hd : (4 * n + 1) / 256 * 64 + (4 * n + 1) % 256 / 4 = n := by omega
      simp [hd]
    · have hv := shl_or_tag n 2 (by norm_num)
      have e8 : ((4 * n + 2) >>> 8) &&& 255 = (4 * n + 2) / 256 % 256 := by
        rw [shiftr_eq, and_255_eq_mod]
        norm_num
      have e16 : ((4 * n + 2) >>> 16) &&& 255 = (4 * n + 2) / 65536 % 256 := by
        rw [shiftr_eq, and_255_eq_mod]
        norm_num
      have e24 : ((4 * n + 2) >>> 24) &&& 255 = (4 * n + 2) / 16777216 := by
        rw [shiftr_eq, and_255_eq_mod]
        norm_num
        omega
      have hn1 : ¬ n < 64 := by omega
      have hn2 : ¬ n < 16384 := by omega
      have hb : encodeCompactU32 n =
          .ok [(4 * n + 2) % 256, (4 * n + 2) / 256 % 256,
               (4 * n + 2) / 65536 % 256, (4 * n + 2) / 16777216] := by
        simp [encodeCompactU32, hn1, hn2, h, hv, and_255_eq_mod, e8, e16, e24]
      refine ⟨_, hb, ?_⟩
      rw [decode4 _ _ _ _ _ (by omega) (by omega) (by omega) (by omega) (by omega)]
      have hd : (4 * n + 2) / 16777216 * 4194304 +
          ((4 * n + 2) / 65536 % 256 * 16384 +
           ((4 * n + 2) / 256 % 256 * 64 + (4 * n + 2) % 256 / 4)) = n := by omega
      simp [hd]

/-- Witness for C9 at the five mode boundary values. -/
theorem c9_compact_roundtrip_witness :
    (63 < 1073741824 ∧ ∃ bs, encodeCompactU32 63 = .ok bs ∧
      decodeCompactU32 bs 0 = .ok (63, bs.length)) ∧
    (64 < 1073741824 ∧ ∃ bs, encodeCompactU32 64 = .ok bs ∧
      decodeCompactU32 bs 0 = .ok (64, bs.length)) ∧
    (16383 < 1073741824 ∧ ∃ bs, encodeCompactU32 16383 = .ok bs ∧
      decodeCompactU32 bs 0 = .ok (16383, bs.length)) ∧
    (16384 < 1073741824 ∧ ∃ bs, encodeCompactU32 16384 = .ok bs ∧
      decodeCompactU32 bs 0 = .ok (16384, bs.length)) ∧
    (1073741823 < 1073741824 ∧ ∃ bs, encodeCompactU32 1073741823 = .ok bs ∧
      decodeCompactU32 bs 0 = .ok (1073741823, bs.length)) :=
  ⟨⟨by norm_num, c9_compact_roundtrip 63 (by norm_num)⟩,
   ⟨by norm_num, c9_compact_roundtrip 64 (by norm_num)⟩,
   ⟨by norm_num, c9_compact_roundtrip 16383 (by norm_num)⟩,
   ⟨by norm_num, c9_compact_roundtrip 16384 (by norm_num)⟩,
   ⟨by norm_num, c9_compact_roundtrip 1073741823 (by norm_num)⟩⟩

/-! ## Helpers for the extrinsic naming claims -/

lemma unknownStr_ne_empty (n : Nat) : unknownStr n ≠ "" := by
  intro hx
  have hl := congrArg String.length hx
  simp [unknownStr, String.length_append] at hl
  exact absurd hl.1.1 (by decide)

lemma and_128_cases (x : Nat) : x &&& 128 = 0 ∨ x &&& 128 = 128 := by
  have h2 := Nat.and_two_pow x 7
  norm_num at h2
  rcases htb : x.testBit 7 <;> rw [htb] at h2 <;> simp at h2 <;> omega

lemma beq128_iff (x : Nat) : ((x &&& 128 == 128) = true) ↔ x &&& 128 ≠ 0 := by
  rcases and_128_cases x with h0 | h128
  · rw [h0]; simp
  · rw [h128]; simp

/-- The identity decodeExtrinsicName returns once the hex decoded and the
header parsed; all branches of the source collected in one value. -/
def identityOf (t : Option STable) (u8 : List Nat) (h : ExtHead) :
    ExtIdentity :=
  let palletIdx := u8.getD h.off 255
  let callIdx := u8.getD (h.off + 1) 255
  match t with
  | none =>
    ⟨unknownStr palletIdx, unknownStr callIdx, h.isSigned, some "no-metadata"⟩
  | some tb =>
    let pallet := palletFor tb palletIdx
    let method := methodFor tb palletIdx callIdx
    if h.isSigned then
      ⟨(pallet.map SPallet.name).getD (unknownStr palletIdx),
       method.getD (unknownStr callIdx), true, some "signed-not-parsed"⟩
    else
      ⟨(pallet.map SPallet.name).getD (unknownStr palletIdx),
       method.getD (unknownStr callIdx), false, none⟩

lemma decodeName_ok (t : Option STable) (hex : String) (u8 : List Nat)
    (h : ExtHead) (hu : hexToU8a hex = .ok u8)
    (hh : readExtrinsicHead u8 = .ok h) :
    decodeExtrinsicName t hex = .ok (identityOf t u8 h) := by
  unfold decodeExtrinsicName identityOf
  simp only [hu, hh, Bind.bind, Except.bind]
  cases t with
  | none => rfl
  | some tb => cases hsv : h.isSigned <;> simp [hsv]

lemma identityOf_signed (t : Option STable) (u8 : List Nat) (h : ExtHead) :
    (identityOf t u8 h).signed = h.isSigned := by
  cases t with
  | none => rfl
  | some tb => cases hsv : h.isSigned <;> simp [identityOf, hsv]

/-- The concrete table used in concrete instances below. -/
def systemTable : STable := ⟨14, [⟨"System", 0, some ["remark"], none⟩]⟩

/-! ## C2 -/

/-- C2 counterexample: with a table present whose only pallet has index 0,
an unsigned extrinsic with pallet byte 5 yields an identity whose reason is
absent, not the claimed pallet-index-not-found. -/
theorem c2_counterexample :
    decodeExtrinsicName (some systemTable) "0x10040500" =
      .ok ⟨"unknown(5)", "unknown(0)", false, none⟩ ∧
    (none : Option String) ≠ some "pallet-index-not-found" := by
  constructor
  · decide
  · decide

/-- C2 amended: for every unsigned extrinsic whose hex decodes and whose
header parses, with a pallet table available, the returned identity carries
no reason tag at all, whether or not the method resolves; the
pallet-index-not-found and call-index-out-of-range distinctions are never
produced on this path. -/
theorem c2_unsigned_no_reason (tb : STable) (hex : String) (u8 : List Nat)
    (h : ExtHead) (hu : hexToU8a hex = .ok u8)
    (hh : readExtrinsicHead u8 = .ok h) (hs : h.isSigned = false) :
    ∃ id, decodeExtrinsicName (some tb) hex = .ok id ∧ id.reason = none :=
  ⟨identityOf (some tb) u8 h, decodeName_ok (some tb) hex u8 h hu hh, by
    simp [identityOf, hs]⟩

/-- Witness for C2 at the unresolved-pallet input. -/
theorem c2_unsigned_no_reason_witness :
    ∃ id, decodeExtrinsicName (some systemTable) "0x10040500" = .ok id ∧
      id.reason = none :=
  c2_unsigned_no_reason systemTable "0x10040500" [16, 4, 5, 0]
    ⟨4, 4, false, 2⟩ (by decide) (by decide) (by decide)

/-! ## C3 -/

/-- C3 counterexample: an odd-length hex string makes decodeExtrinsicName
throw the hexToU8a error instead of returning an identity. -/
theorem c3_counterexample :
    decodeExtrinsicName none "0x123" =
      .error (.err "hexToU8a: hex length must be even") := by decide

/-- C3 amended: decodeExtrinsicName does throw on inputs whose hex or
extrinsic header fails to parse (odd-length hex, too few bytes for the
version byte, a mode 3 compact length); whenever both parse, it returns an
identity whose pallet and method are non-empty, provided the table names it
may copy from are themselves non-empty. -/
theorem c3_returns_after_parse (t : Option STable) (hex : String)
    (u8 : List Nat) (h : ExtHead) (hu : hexToU8a hex = .ok u8)
    (hh : readExtrinsicHead u8 = .ok h)
    (hnames : ∀ tb, t = some tb → ∀ p ∈ tb.pallets,
      p.name ≠ "" ∧ ∀ cs, p.calls = some cs → ∀ c ∈ cs, c ≠ "") :
    ∃ id, decodeExtrinsicName t hex = .ok id ∧
      id.pallet ≠ "" ∧ id.method ≠ "" := by
  refine ⟨identityOf t u8 h, decodeName_ok t hex u8 h hu hh, ?_, ?_⟩
  · cases t with
    | none =>
      cases hsv : h.isSigned <;> simp [identityOf, hsv] <;>
        exact unknownStr_ne_empty _
    | some tb =>
      rcases hf : palletFor tb (u8.getD h.off 255) with _ | p
      · cases hsv : h.isSigned <;>
          simp [identityOf, hsv, hf, -List.getD_eq_getElem?_getD] <;>
          exact unknownStr_ne_empty _
      · have hp : p ∈ tb.pallets := List.mem_of_find?_eq_some hf
        have hne := (hnames tb rfl p hp).1
        cases hsv : h.isSigned <;>
          simp [identityOf, hsv, hf, -List.getD_eq_getElem?_getD] <;>
          exact hne
  · cases t with
    | none =>
      cases hsv : h.isSigned <;> simp [identityOf, hsv] <;>
        exact unknownStr_ne_empty _
    | some tb =>
      rcases hm : methodFor tb (u8.getD h.off 255) (u8.getD (h.off + 1) 255)
          with _ | c
      · cases hsv : h.isSigned <;>
          simp [identityOf, hsv, hm, -List.getD_eq_getElem?_getD] <;>
          exact unknownStr_ne_empty _
      · rcases Option.bind_eq_some.mp hm with ⟨cs, hcs, hget⟩
        rcases Option.bind_eq_some.mp hcs with ⟨p, hp, hcalls⟩
        have hpmem : p ∈ tb.pallets := List.mem_of_find?_eq_some hp
        have hcmem : c ∈ cs := List.get?_mem hget
        have hne := (hnames tb rfl p hpmem).2 cs hcalls c hcmem
        cases hsv : h.isSigned <;>
          simp [identityOf, hsv, hm, -List.getD_eq_getElem?_getD] <;>
          exact hne

/-- Witness for C3 on a parsable unsigned extrinsic without a table. -/
theorem c3_returns_after_parse_witness :
    ∃ id, decodeExtrinsicName none "0x10040500" = .ok id ∧
      id.pallet ≠ "" ∧ id.method ≠ "" :=
  c3_returns_after_parse none "0x10040500" [16, 4, 5, 0] ⟨4, 4, false, 2⟩
    (by decide) (by decide) (fun tb hx => nomatch hx)

/-! ## C5 -/

/-- C5: for every extrinsic hex whose compact length and version byte
parse, the signed flag of the returned identity equals bit 7 of the byte
right after the compact length, with or without a pallet table (the table
argument t is arbitrary). -/
theorem c5_signed_flag (t : Option STable) (hex : String) (u8 : List Nat)
    (len lb : Nat) (hu : hexToU8a hex = .ok u8)
    (hc : decodeCompactU32 u8 0 = .ok (len, lb)) (hv : lb < u8.length) :
    ∃ id, decodeExtrinsicName t hex = .ok id ∧
      (id.signed = true ↔ u8.getD lb 0 &&& 128 ≠ 0) := by
  have hh : readExtrinsicHead u8 =
      .ok ⟨len, u8.getD lb 0, (u8.getD lb 0 &&& 128) == 128, lb + 1⟩ := by
    simp [readExtrinsicHead, hc, hv, Bind.bind, Except.bind]
  refine ⟨_, decodeName_ok t hex u8 _ hu hh, ?_⟩
  rw [identityOf_signed]
  exact beq128_iff _

/-- Witness for C5 on a signed extrinsic (version byte 0x84). -/
theorem c5_signed_flag_witness :
    ∃ id, decodeExtrinsicName none "0x10840500" = .ok id ∧
      (id.signed = true ↔ [16, 132, 5, 0].getD 1 0 &&& 128 ≠ 0) :=
  c5_signed_flag none "0x10840500" [16, 132, 5, 0] 4 1 (by decide)
    (by decide) (by decide)

/-! ## C1 -/

/-- C1 counterexample: a Variant with variants at indices 0 and 2 yields a
list of length 2 holding both names in index order, not the claimed dense
length 3 sequence with a synthetic unknown marker at position 1 (names are
raw bytes; 65 and 66 are A and B). -/
theorem c1_counterexample :
    variantNamesFrom [(0, TDef.variant [⟨[65], 0⟩, ⟨[66], 2⟩])] (some 0) =
      some [[65], [66]] ∧
    ¬ ([[65], [66]] : List (List Nat)).length = 3 := by
  constructor
  · decide
  · decide

/-- C1 amended: when the type id resolves to a Variant, the resulting name
list is the variant names sorted ascending by declared index, one entry per
variant and with no padding; indexing the list by a call index yields the
variant declared with that index exactly when the sorted declared indices
are the contiguous positions 0..n-1. -/
theorem c1_sorted_variant_names (reg : RegMap) (tid : Nat) (vs : List SiVar)
    (h : regGet reg tid = some (.variant vs)) :
    ∃ sorted : List SiVar,
      variantNamesFrom reg (some tid) = some (sorted.map SiVar.name) ∧
      sorted.length = vs.length ∧ sorted.Perm vs ∧
      sorted.Sorted varLE ∧
      ((∀ j (hj : j < sorted.length), (sorted.get ⟨j, hj⟩).index = j) →
        ∀ v ∈ vs, (sorted.map SiVar.name).get? v.index = some v.name) := by
  refine ⟨vs.insertionSort varLE, ?_, ?_, ?_, ?_, ?_⟩
  · simp [variantNamesFrom, h]
  · exact List.length_insertionSort _ _
  · exact List.perm_insertionSort _ _
  · exact List.sorted_insertionSort _ _
  · intro hidx v hv
    have hvmem : v ∈ vs.insertionSort varLE :=
      (List.perm_insertionSort varLE vs).mem_iff.mpr hv
    rcases List.mem_iff_get.mp hvmem with ⟨⟨j, hj⟩, hget⟩
    have hvj : v.index = j := by rw [← hget]; exact hidx j hj
    rw [hvj, List.get?_map, List.get?_eq_get hj, hget]
    rfl

/-- Witness for C1 on a two-variant enum declared out of order with the
contiguous indices 0 and 1. -/
theorem c1_sorted_variant_names_witness :
    ∃ sorted : List SiVar,
      variantNamesFrom [(3, TDef.variant [⟨[66], 1⟩, ⟨[65], 0⟩])] (some 3) =
        some (sorted.map SiVar.name) ∧
      sorted.length = ([⟨[66], 1⟩, ⟨[65], 0⟩] : List SiVar).length ∧
      sorted.Perm [⟨[66], 1⟩, ⟨[65], 0⟩] ∧
      sorted.Sorted varLE ∧
      ((∀ j (hj : j < sorted.length), (sorted.get ⟨j, hj⟩).index = j) →
        ∀ v ∈ ([⟨[66], 1⟩, ⟨[65], 0⟩] : List SiVar),
          (sorted.map SiVar.name).get? v.index = some v.name) :=
  c1_sorted_variant_names [(3, TDef.variant [⟨[66], 1⟩, ⟨[65], 0⟩])] 3
    [⟨[66], 1⟩, ⟨[65], 0⟩] (by decide)

/-! ## C4 -/

/-- The override tables of the claim example. -/
def ovTablesEx : OvTables := ⟨14, [⟨"System", 0, some [⟨"remark", 0⟩], none⟩]⟩

/-- The converted facade table the example yields. -/
def ovTablesExConv : STable := ⟨14, [⟨"System", 0, some ["remark"], none⟩]⟩

/-- C4: with overrides.metadata.tables supplied, the connect model adopts
the converted tables as both the latest table and the cached entry for the
runtime spec version, performs no chain metadata decode, and an unsigned
extrinsic with pallet byte 0 and call byte 0 then decodes to System.remark.
Settled against the spec model connectTables, as the adopting facade
revision is missing from the source snapshot. -/
theorem c4_override_tables :
    connectTables (some ovTablesEx) 100 none =
      ⟨some ovTablesExConv, [(100, ovTablesExConv)], false⟩ ∧
    decodeExtrinsicName (connectTables (some ovTablesEx) 100 none).tablesLatest
      "0x10040000" = .ok ⟨"System", "remark", false, none⟩ := by
  constructor
  · decide
  · decide

/-! ## C8 -/

/-- C8 counterexample: invoking the unsubscribe closure twice issues two
unsubscribe RPC frames, not one; the second invocation is not a no-op. -/
theorem c8_counterexample :
    countCalls "chain_unsubscribeNewHeads"
      (unsubInvoke "chain_unsubscribeNewHeads" "SUB1"
        ⟨1, [], ["SUB1"], []⟩) = 1 ∧
    countCalls "chain_unsubscribeNewHeads"
      (unsubInvoke "chain_unsubscribeNewHeads" "SUB1"
        (unsubInvoke "chain_unsubscribeNewHeads" "SUB1"
          ⟨1, [], ["SUB1"], []⟩)) = 2 := by
  constructor
  · decide
  · decide

/-- C8 amended: a second invocation of the unsubscribe closure raises no
exception and its subs-map deletion is vacuous, but it does issue exactly
one additional unsubscribe RPC: the closure keeps no flag of having run. -/
theorem c8_second_unsubscribe (st : WsState) (u s : String) :
    (unsubInvoke u s (unsubInvoke u s st)).out =
      (unsubInvoke u s st).out ++ [(u, s)] ∧
    (s ∉ (unsubInvoke u s st).subs →
      (unsubInvoke u s (unsubInvoke u s st)).subs =
        (unsubInvoke u s st).subs) := by
  constructor
  · rfl
  · intro hmem
    simp [unsubInvoke, wsSend] at hmem ⊢
    exact hmem

/-- Witness for C8 on a one-subscription state. -/
theorem c8_second_unsubscribe_witness :
    (unsubInvoke "chain_unsubscribeNewHeads" "SUB1"
      (unsubInvoke "chain_unsubscribeNewHeads" "SUB1"
        ⟨1, [], ["SUB1"], []⟩)).out =
      (unsubInvoke "chain_unsubscribeNewHeads" "SUB1"
        ⟨1, [], ["SUB1"], []⟩).out ++ [("chain_unsubscribeNewHeads", "SUB1")] ∧
    (unsubInvoke "chain_unsubscribeNewHeads" "SUB1"
      (unsubInvoke "chain_unsubscribeNewHeads" "SUB1"
        ⟨1, [], ["SUB1"], []⟩)).subs =
      (unsubInvoke "chain_unsubscribeNewHeads" "SUB1"
        ⟨1, [], ["SUB1"], []⟩).subs := by
  have h := c8_second_unsubscribe ⟨1, [], ["SUB1"], []⟩
    "chain_unsubscribeNewHeads" "SUB1"
  exact ⟨h.1, h.2 (by decide)⟩

/-! ## C7 -/

/-- The reader state left behind by one pallet record parse, whether it
succeeded or threw. -/
def palletStep (reg : RegMap) (r : Rd) : Rd := ((readOnePallet reg) r).2

/-- C7: the pallet pass of readPallets, run for a declared length n, never
throws and returns exactly n entries; the entry at each position j is the
parsed record when the j-th record parses and the placeholder
pallet_(i plus j) with index 255 when it throws, and the loop continues
through the remaining records from the state the failed parse left behind. -/
theorem c7_pallet_pass (reg : RegMap) (n : Nat) : ∀ (i : Nat) (r : Rd),
    ∃ out r', readPalletsLoop reg i n r = (.ok out, r') ∧ out.length = n ∧
      ∀ j, out.get? j =
        if j < n then
          some (match (readOnePallet reg ((palletStep reg)^[j] r)).1 with
                | .ok e => e
                | .error _ => palletPlaceholder (i + j))
        else none := by
  induction n with
  | zero =>
    intro i r
    exact ⟨[], r, rfl, rfl, fun j => by simp⟩
  | succ n ih =>
    intro i r
    obtain ⟨out, r', hloop, hlen, hget⟩ := ih (i + 1) (palletStep reg r)
    rcases hro : readOnePallet reg r with ⟨res, r1⟩
    have hr1 : palletStep reg r = r1 := by rw [palletStep, hro]
    refine ⟨(match res with
             | .ok e => e
             | .error _ => palletPlaceholder i) :: out, r', ?_, ?_, ?_⟩
    · have hstep : readPalletsLoop reg i (n + 1) r =
          mBind (mTry (readOnePallet reg) (palletPlaceholder i))
            (fun e => mBind (readPalletsLoop reg (i + 1) n)
              (fun rest => mPure (e :: rest))) r := rfl
      rw [hr1] at hloop
      have htry : mTry (readOnePallet reg) (palletPlaceholder i) r =
          (.ok (match res with
                | .ok e => e
                | .error _ => palletPlaceholder i), r1) := by
        simp only [mTry, hro]
        cases res <;> rfl
      rw [hstep]
      simp only [mBind, htry, hloop, mPure]
    · simp [hlen]
    · intro j
      cases j with
      | zero =>
        simp only [List.get?_cons_zero, Function.iterate_zero, id_eq,
          Nat.zero_lt_succ, if_true, hro, Nat.add_zero]
        cases res <;> rfl
      | succ j =>
        have hiter : (palletStep reg)^[j + 1] r =
            (palletStep reg)^[j] (palletStep reg r) :=
          Function.iterate_succ_apply _ _ _
        have harith : i + 1 + j = i + (j + 1) := by omega
        simp only [List.get?_cons_succ, hget j, hiter, hr1, harith,
          Nat.succ_lt_succ_iff]

/-! ## C10 -/

lemma onMessage_skip (m : WsMsg) (st : WsState)
    (h : isNotification m = true ∨ m.idF = none ∨
         (∃ i, m.idF = some i ∧ i ∉ st.pending)) :
    onMessage m st = (st, [], false) := by
  rcases h with h1 | h2 | ⟨i, hi, hmem⟩
  · simp [onMessage, h1]
  · unfold onMessage
    split
    · rfl
    · rw [h2]
  · unfold onMessage
    split
    · rfl
    · rw [hi]
      simp [hmem]

lemma onMessage_hit (m : WsMsg) (st : WsState) (i : Nat)
    (h1 : isNotification m = false) (h2 : m.idF = some i)
    (h3 : i ∈ st.pending) :
    onMessage m st = ({ st with pending := st.pending.erase i },
      if m.errorF then [] else [i], m.errorF) := by
  unfold onMessage
  rw [h1, h2]
  simp only [Bool.false_eq_true, if_false]
  simp [h3]
  cases herr : m.errorF <;> simp

lemma processFrames_cons (m : WsMsg) (ms : List WsMsg) (st : WsState) :
    processFrames (m :: ms) st =
      ((processFrames ms (onMessage m st).1).1,
       (onMessage m st).2.1 ++ (processFrames ms (onMessage m st).1).2) := by
  rcases hom : onMessage m st with ⟨st', comps, threw⟩
  rcases hpf : processFrames ms st' with ⟨st'', rest⟩
  simp [processFrames, hom, hpf]

lemma processFrames_count (i : Nat) : ∀ (ms : List WsMsg) (st : WsState),
    st.pending.Nodup →
    List.count i (processFrames ms st).2 ≤ (if i ∈ st.pending then 1 else 0) := by
  intro ms
  induction ms with
  | nil =>
    intro st hnd
    simp [processFrames]
  | cons m ms ih =>
    intro st hnd
    rw [processFrames_cons, List.count_append]
    by_cases hnot : isNotification m
    · rw [onMessage_skip m st (Or.inl hnot)]
      simpa using ih st hnd
    · have hnotf : isNotification m = false := by
        rcases hb : isNotification m
        · rfl
        · exact absurd hb hnot
      cases hid : m.idF with
      | none =>
        rw [onMessage_skip m st (Or.inr (Or.inl hid))]
        simpa using ih st hnd
      | some idv =>
        by_cases hmem : idv ∈ st.pending
        · have ha : (onMessage m st).2.1 = (if m.errorF then [] else [idv]) := by
            rw [onMessage_hit m st idv hnotf hid hmem]
          have hb : (onMessage m st).1 =
              { st with pending := st.pending.erase idv } := by
            rw [onMessage_hit m st idv hnotf hid hmem]
          rw [ha, hb]
          have hnd' : (st.pending.erase idv).Nodup := hnd.erase idv
          have hrec := ih { st with pending := st.pending.erase idv } hnd'
          simp only at hrec
          by_cases hieq : i = idv
          · subst hieq
            have hnm : i ∉ st.pending.erase i := hnd.not_mem_erase
            rw [if_neg hnm] at hrec
            have hcomps :
                List.count i (if m.errorF then ([] : List Nat) else [i]) ≤ 1 := by
              split <;> simp
            simp only [if_pos hmem]
            omega
          · have hcz :
                List.count i (if m.errorF then ([] : List Nat) else [idv]) = 0 := by
              split
              · simp
              · simp [List.count_singleton]
                omega
            have hiff : (i ∈ st.pending.erase idv) ↔ (i ∈ st.pending) :=
              List.mem_erase_of_ne hieq
            by_cases hip : i ∈ st.pending
            · rw [if_pos (hiff.mpr hip)] at hrec
              rw [if_pos hip]
              omega
            · rw [if_neg (fun hx => hip (hiff.mp hx))] at hrec
              rw [if_neg hip]
              omega
        · rw [onMessage_skip m st (Or.inr (Or.inr ⟨idv, hid, hmem⟩))]
          simpa using ih st hnd

/-- C10: a response frame whose id is pending removes the pending entry
before the completion runs (the completion list is computed from the state
with the entry already erased), a second identical frame then finds no
pending entry and produces no completion, and over any frame sequence a
given id is completed at most once when pending ids are unique, so every
send is completed by at most one response. -/
theorem c10_response_dispatch (st : WsState) (m : WsMsg) (i : Nat) :
    (isNotification m = false → m.idF = some i → i ∈ st.pending →
      (onMessage m st).1.pending = st.pending.erase i ∧
      (onMessage m st).2.1 = (if m.errorF then [] else [i]) ∧
      (st.pending.Nodup → (onMessage m ((onMessage m st).1)).2.1 = [])) ∧
    (∀ ms, st.pending.Nodup → List.count i (processFrames ms st).2 ≤ 1) := by
  constructor
  · intro h1 h2 h3
    have hb := onMessage_hit m st i h1 h2 h3
    refine ⟨by rw [hb], by rw [hb], ?_⟩
    intro hnd
    have hb1 : (onMessage m st).1 =
        { st with pending := st.pending.erase i } := by rw [hb]
    rw [hb1]
    have hnm : i ∉ st.pending.erase i := hnd.not_mem_erase
    rw [onMessage_skip m _ (Or.inr (Or.inr ⟨i, h2, hnm⟩))]
  · intro ms hnd
    have hc := processFrames_count i ms st hnd
    split at hc <;> omega

/-- The concrete response frame and state of the C10 witness. -/
def c10Msg : WsMsg := ⟨none, none, some 7, false⟩

/-- The concrete provider state of the C10 witness. -/
def c10St : WsState := ⟨7, [7], [], []⟩

/-- Witness for C10 at a single pending request and a duplicated frame. -/
theorem c10_response_dispatch_witness :
    ((onMessage c10Msg c10St).1.pending = c10St.pending.erase 7 ∧
     (onMessage c10Msg c10St).2.1 = (if c10Msg.errorF then [] else [7]) ∧
     (c10St.pending.Nodup →
       (onMessage c10Msg ((onMessage c10Msg c10St).1)).2.1 = [])) ∧
    List.count 7 (processFrames [c10Msg, c10Msg] c10St).2 ≤ 1 := by
  have h := c10_response_dispatch c10St c10Msg 7
  exact ⟨h.1 (by decide) (by decide) (by decide),
         h.2 [c10Msg, c10Msg] (by decide)⟩

/-! ## C6 -/

lemma c6_part1 (raw : List Nat) :
    extractMetaTables raw =
      (match parseCandidate (stripMetaMagic raw) with
       | .ok t => .ok t
       | .error e =>
         match tryUnwrapVecU8 raw with
         | none => .error e
         | some v => parseCandidate (stripMetaMagic v)) := by
  unfold extractMetaTables
  cases hu : tryUnwrapVecU8 raw with
  | none =>
    cases hp : parseCandidate (stripMetaMagic raw) <;>
      simp [firstOkCandidate, hp]
  | some v =>
    cases hp : parseCandidate (stripMetaMagic raw) with
    | ok t => simp [firstOkCandidate, hp]
    | error e =>
      cases hp2 : parseCandidate (stripMetaMagic v) <;>
        simp [firstOkCandidate, hp, hp2]

lemma c6_part2 (raw : List Nat) (p : List Nat) :
    tryUnwrapVecU8 raw = some p ↔
      ∃ L off, decodeCompactU32 raw 0 = .ok (L, off) ∧
        off + L = raw.length ∧ p = raw.drop off := by
  by_cases h0 : 0 < raw.length
  case neg =>
    have hraw : raw = [] := List.length_eq_zero.mp (by omega)
    subst hraw
    simp [tryUnwrapVecU8, decodeCompactU32]
  case pos =>
    set b0 := raw.getD 0 0 with hb0
    have hm4 : b0 % 4 = 0 ∨ b0 % 4 = 1 ∨ b0 % 4 = 2 ∨ b0 % 4 = 3 := by omega
    rcases hm4 with hm | hm | hm | hm
    · have hu : tryUnwrapVecU8 raw =
          (if 1 + (b0 >>> 2) = raw.length then some (raw.drop 1) else none) := by
        simp [tryUnwrapVecU8, ← hb0, hm, -List.getD_eq_getElem?_getD]
      have hd : decodeCompactU32 raw 0 = .ok (b0 >>> 2, 1) := by
        simp [decodeCompactU32, h0, ← hb0, hm, -List.getD_eq_getElem?_getD]
      rw [hu, hd]
      constructor
      · intro hif
        split at hif
        next hc =>
          exact ⟨b0 >>> 2, 1, rfl, by omega, by cases hif; rfl⟩
        next => cases hif
      · rintro ⟨L, off, hok, hsum, hp⟩
        cases hok
        rw [if_pos (by omega), hp]
    · have hu : tryUnwrapVecU8 raw =
          (if 2 + ((b0 >>> 2) ||| (raw.getD 1 0 <<< 6)) % 4294967296 = raw.length
           then some (raw.drop 2) else none) := by
        simp [tryUnwrapVecU8, ← hb0, hm, -List.getD_eq_getElem?_getD]
      by_cases h1 : 0 + 1 < raw.length
      · have hd : decodeCompactU32 raw 0 =
            .ok (((b0 >>> 2) ||| (raw.getD (0 + 1) 0 <<< 6)) % 4294967296, 2) := by
          simp [decodeCompactU32, h0, h1, ← hb0, hm, -List.getD_eq_getElem?_getD]
        rw [hu, hd]
        constructor
        · intro hif
          split at hif
          next hc =>
            refine ⟨_, 2, rfl, by simpa using hc, by cases hif; rfl⟩
          next => cases hif
        · rintro ⟨L, off, hok, hsum, hp⟩
          cases hok
          rw [if_pos (by simpa using hsum), hp]
      · have hd : decodeCompactU32 raw 0 =
            .error (.err "compact decode: need 2 bytes") := by
          simp [decodeCompactU32, h0, h1, ← hb0, hm, -List.getD_eq_getElem?_getD]
        rw [hu, hd]
        constructor
        · intro hif
          split at hif
          next hc => omega
          next => cases hif
        · rintro ⟨L, off, hok, _, _⟩
          cases hok
    · have hu : tryUnwrapVecU8 raw =
          (if 4 + ((b0 >>> 2) ||| (raw.getD 1 0 <<< 6) ||| (raw.getD 2 0 <<< 14) |||
                   (raw.getD 3 0 <<< 22)) % 4294967296 = raw.length
           then some (raw.drop 4) else none) := by
        simp [tryUnwrapVecU8, ← hb0, hm, -List.getD_eq_getElem?_getD]
      by_cases h3 : 0 + 3 < raw.length
      · have hd : decodeCompactU32 raw 0 =
            .ok (((b0 >>> 2) ||| (raw.getD (0 + 1) 0 <<< 6) |||
                  (raw.getD (0 + 2) 0 <<< 14) |||
                  (raw.getD (0 + 3) 0 <<< 22)) % 4294967296, 4) := by
          simp [decodeCompactU32, h0, h3, ← hb0, hm, -List.getD_eq_getElem?_getD]
        rw [hu, hd]
        constructor
        · intro hif
          split at hif
          next hc =>
            refine ⟨_, 4, rfl, by simpa using hc, by cases hif; rfl⟩
          next => cases hif
        · rintro ⟨L, off, hok, hsum, hp⟩
          cases hok
          rw [if_pos (by simpa using hsum), hp]
      · have hd : decodeCompactU32 raw 0 =
            .error (.err "compact decode: need 4 bytes") := by
          simp [decodeCompactU32, h0, h3, ← hb0, hm, -List.getD_eq_getElem?_getD]
        rw [hu, hd]
        constructor
        · intro hif
          split at hif
          next hc => omega
          next => cases hif
        · rintro ⟨L, off, hok, _, _⟩
          cases hok
    · have hu : tryUnwrapVecU8 raw = none := by
        simp [tryUnwrapVecU8, ← hb0, hm, -List.getD_eq_getElem?_getD]
      have hd : decodeCompactU32 raw 0 =
          .error (.err "compact: big-integer mode not implemented") := by
        simp [decodeCompactU32, h0, ← hb0, hm, -List.getD_eq_getElem?_getD]
      rw [hu, hd]
      constructor
      · intro hif
        cases hif
      · rintro ⟨L, off, hok, _, _⟩
        cases hok

lemma c6_gate (cand : List Nat) :
    (∀ t, parseCandidate cand = .ok t →
      (cand.getD 0 0 = 14 ∨ cand.getD 0 0 = 15 ∨ cand.getD 0 0 = 16) ∧
      t.version = cand.getD 0 0) ∧
    (0 < cand.length →
      ¬(cand.getD 0 0 = 14 ∨ cand.getD 0 0 = 15 ∨ cand.getD 0 0 = 16) →
      parseCandidate cand = .error (.err s!"bad version tag {cand.getD 0 0}")) := by
  have hrep : parseCandidate cand =
      ((mBind mU8 (fun ver =>
        if ver = 14 ∨ ver = 15 ∨ ver = 16 then
          mBind (mPure ()) (fun _ => mBind readPortableRegistryWF (fun reg =>
            mBind (readPallets reg) (fun pallets =>
              mPure (⟨ver, pallets⟩ : MetaT))))
        else
          mBind (mThrow s!"bad version tag {ver}" : M Unit)
            (fun _ => mBind readPortableRegistryWF (fun reg =>
              mBind (readPallets reg) (fun pallets =>
                mPure (⟨ver, pallets⟩ : MetaT)))))) ⟨cand, 0⟩).1 := by
    unfold parseCandidate
    rfl
  by_cases h0 : 0 < cand.length
  case neg =>
    have hu : mU8 ⟨cand, 0⟩ = (.error (.err "read u8 OOB"), ⟨cand, 0⟩) := by
      simp [mU8, h0]
    have hp : parseCandidate cand = .error (.err "read u8 OOB") := by
      rw [hrep]
      simp only [mBind, hu]
    constructor
    · intro t ht
      rw [hp] at ht
      cases ht
    · intro hx
      exact absurd hx h0
  case pos =>
    have hu : mU8 ⟨cand, 0⟩ = (.ok (cand.getD 0 0), ⟨cand, 1⟩) := by
      simp [mU8, h0, -List.getD_eq_getElem?_getD]
    by_cases hver : cand.getD 0 0 = 14 ∨ cand.getD 0 0 = 15 ∨ cand.getD 0 0 = 16
    · have hrest : parseCandidate cand =
          ((mBind readPortableRegistryWF (fun reg =>
            mBind (readPallets reg) (fun pallets =>
              mPure (⟨cand.getD 0 0, pallets⟩ : MetaT)))) ⟨cand, 1⟩).1 := by
        rw [hrep]
        simp only [mBind, hu, if_pos hver, mPure]
      constructor
      · intro t ht
        rw [hrest] at ht
        simp only [mBind] at ht
        rcases hreg : readPortableRegistryWF ⟨cand, 1⟩ with ⟨res, r2⟩
        rw [hreg] at ht
        cases res with
        | error e => simp at ht
        | ok reg =>
          simp only [mBind] at ht
          rcases hpal : readPallets reg r2 with ⟨res2, r3⟩
          rw [hpal] at ht
          cases res2 with
          | error e => simp at ht
          | ok ps =>
            simp only [mPure] at ht
            cases ht
            exact ⟨hver, rfl⟩
      · intro _ hx
        exact absurd hver hx
    · have hp : parseCandidate cand =
          .error (.err s!"bad version tag {cand.getD 0 0}") := by
        rw [hrep]
        simp only [mBind, hu, if_neg hver, mThrow]
      constructor
      · intro t ht
        rw [hp] at ht
        cases ht
      · intro _ _
        exact hp

/-- C6 counterexample: a candidate whose version byte is 14 and whose
registry parses to one type is still rejected when the pallet vector length
cannot be read, so extractMetaTables throws where the claim says the
candidate is accepted; the Vec unwrap does not apply to these bytes. -/
theorem c6_counterexample :
    stripMetaMagic [14, 4, 0, 0, 0, 8, 0] = [14, 4, 0, 0, 0, 8, 0] ∧
    tryUnwrapVecU8 [14, 4, 0, 0, 0, 8, 0] = none ∧
    (readPortableRegistryWF ⟨[14, 4, 0, 0, 0, 8, 0], 1⟩).1 =
      .ok [(0, TDef.other)] ∧
    extractMetaTables [14, 4, 0, 0, 0, 8, 0] =
      .error (.err "read u8 OOB") := by
  refine ⟨?_, ?_, ?_, ?_⟩ <;> decide

/-- C6 amended: extractMetaTables tries exactly the two candidates
strip-magic of raw and then strip-magic of the Vec unwrap of raw when that
unwrap applies, returning the first successful parse and otherwise the last
error; the unwrap yields a payload exactly when a mode 0, 1 or 2 compact
length L decoded at offset 0 satisfies offset-after-length plus L equals the
raw length; and a candidate parse succeeds only with leading version byte
14, 15 or 16 (that byte becoming the table version), a present leading byte
outside that set failing with the bad-version error. Acceptance further
requires the registry and the pallet-vector length to parse, which the
counterexample shows can still fail after the version gate. -/
theorem c6_candidate_pipeline (raw : List Nat) :
    (extractMetaTables raw =
      (match parseCandidate (stripMetaMagic raw) with
       | .ok t => .ok t
       | .error e =>
         match tryUnwrapVecU8 raw with
         | none => .error e
         | some v => parseCandidate (stripMetaMagic v))) ∧
    (∀ p, tryUnwrapVecU8 raw = some p ↔
      ∃ L off, decodeCompactU32 raw 0 = .ok (L, off) ∧
        off + L = raw.length ∧ p = raw.drop off) ∧
    (∀ cand : List Nat,
      (∀ t, parseCandidate cand = .ok t →
        (cand.getD 0 0 = 14 ∨ cand.getD 0 0 = 15 ∨ cand.getD 0 0 = 16) ∧
        t.version = cand.getD 0 0) ∧
      (0 < cand.length →
        ¬(cand.getD 0 0 = 14 ∨ cand.getD 0 0 = 15 ∨ cand.getD 0 0 = 16) →
        parseCandidate cand =
          .error (.err s!"bad version tag {cand.getD 0 0}"))) :=
  ⟨c6_part1 raw, fun p => c6_part2 raw p, fun cand => c6_gate cand⟩

/-- A tiny metadata blob wrapped as Vec of u8 with the meta magic: compact
length 32, the magic, version 14, a one-type registry whose type 0 is a
two-variant enum, and one pallet using it. -/
def c6inner : List Nat :=
  [109, 101, 116, 97] ++
  [14, 4, 0, 0, 0, 1, 8, 4, 65, 0, 0, 0, 4, 66, 0, 2, 0, 0] ++
  [4, 4, 83, 0, 1, 0, 0, 0, 0, 7]

/-- The wrapped raw bytes of the C6 witness. -/
def c6raw : List Nat := 128 :: c6inner

set_option maxHeartbeats 1000000 in
/-- Witness for C6: on the wrapped blob the first candidate fails the
version gate, the unwrap applies with the compact header decoded by
decodeCompactU32, and extraction falls through to the second candidate. -/
theorem c6_candidate_pipeline_witness :
    tryUnwrapVecU8 c6raw = some c6inner ∧
    (∃ L off, decodeCompactU32 c6raw 0 = .ok (L, off) ∧
      off + L = c6raw.length ∧ c6inner = c6raw.drop off) ∧
    parseCandidate (stripMetaMagic c6raw) =
      .error (.err "bad version tag 128") ∧
    extractMetaTables c6raw = parseCandidate (stripMetaMagic c6inner) := by
  have h := c6_candidate_pipeline c6raw
  have e1 : parseCandidate (stripMetaMagic c6raw) =
      .error (.err "bad version tag 128") := by decide
  have e2 : tryUnwrapVecU8 c6raw = some c6inner := by decide
  refine ⟨e2, (h.2.1 c6inner).mp e2, e1, ?_⟩
  rw [h.1, e1, e2]
